import Mathlib

/-!
Verification of the iterative deep-research pipeline of this repository
(`deep_research/pipeline.py` and `deep_research/states.py`).

The text helpers (`_strip_thinking_tokens`, `_normalize_latex`) are embedded
over `List Char`; Python's `str.find`/`in`/slicing become explicit list
functions, and the `while`/`re.sub`/`re.split` loops become fuel-indexed
structural recursions (with enough fuel they agree with the unbounded loops,
and a run that exhausts its fuel is reported as `none` / left unchanged).

The five pipeline stages and the routing function are embedded as pure
functions from the state plus the external inputs (model output, search
response, JSON-parse outcome) to a partial state update plus the list of
notifier events emitted; the LangGraph merge semantics declared by the
`Annotated[..., operator.add]` fields of `SummaryState` is `applyUpdate`.
-/

namespace DeepResearch

/-! ### Substring machinery (Python `str.find`, `in`, slicing) -/

/-- `begins pat l` is true when `pat` is an initial segment of `l`. -/
def begins : List Char → List Char → Bool
  | [], _ => true
  | _ :: _, [] => false
  | a :: pat, b :: l => a = b && begins pat l

/-- Index of the first occurrence of `pat` in `l` (Python `str.find`),
`none` when `pat` does not occur. -/
def findSub (pat : List Char) : List Char → Option Nat
  | [] => if begins pat [] then some 0 else none
  | a :: t => if begins pat (a :: t) then some 0 else (findSub pat t).map (· + 1)

/-- Python's `pat in l`. -/
def containsB (pat l : List Char) : Bool := (findSub pat l).isSome

theorem begins_iff_ex {pat l : List Char} : begins pat l = true ↔ ∃ t, l = pat ++ t := by
  induction pat generalizing l with
  | nil => simp [begins]
  | cons a pat ih =>
    cases l with
    | nil => simp [begins]
    | cons b l =>
      simp only [begins, List.cons_append, Bool.and_eq_true, decide_eq_true_eq, ih]
      constructor
      · rintro ⟨rfl, t, rfl⟩; exact ⟨t, rfl⟩
      · rintro ⟨t, h⟩
        injection h with h1 h2
        exact ⟨h1.symm, t, h2⟩

theorem begins_refl_append (pat t : List Char) : begins pat (pat ++ t) = true :=
  begins_iff_ex.2 ⟨t, rfl⟩

theorem begins_length {pat l : List Char} (h : begins pat l = true) :
    pat.length ≤ l.length := by
  obtain ⟨t, rfl⟩ := begins_iff_ex.1 h
  simp

theorem begins_extend {pat l l2 : List Char} (h : begins pat l = true) :
    begins pat (l ++ l2) = true := by
  obtain ⟨t, rfl⟩ := begins_iff_ex.1 h
  exact begins_iff_ex.2 ⟨t ++ l2, by simp⟩

theorem begins_head {pat l : List Char} (h : begins pat l = true) (hne : pat ≠ []) :
    l.get? 0 = pat.get? 0 := by
  obtain ⟨t, rfl⟩ := begins_iff_ex.1 h
  cases pat with
  | nil => exact absurd rfl hne
  | cons a p => rfl

theorem findSub_some_begins {pat l : List Char} {i : Nat}
    (h : findSub pat l = some i) : begins pat (l.drop i) = true := by
  induction l generalizing i with
  | nil =>
    simp only [findSub] at h
    split at h
    · next hb => cases h; exact hb
    · cases h
  | cons a t ih =>
    simp only [findSub] at h
    split at h
    · next hb => cases h; exact hb
    · next =>
      cases hf : findSub pat t with
      | none => rw [hf] at h; cases h
      | some j =>
        rw [hf] at h
        simp only [Option.map_some'] at h
        cases h
        exact ih hf

theorem findSub_some_min {pat l : List Char} {i : Nat}
    (h : findSub pat l = some i) : ∀ j, j < i → begins pat (l.drop j) = false := by
  induction l generalizing i with
  | nil =>
    intro j hj
    simp only [findSub] at h
    split at h
    · cases h; omega
    · cases h
  | cons a t ih =>
    intro j hj
    simp only [findSub] at h
    split at h
    · cases h; omega
    · next hb =>
      cases hf : findSub pat t with
      | none => rw [hf] at h; cases h
      | some k =>
        rw [hf] at h
        simp only [Option.map_some'] at h
        cases h
        cases j with
        | zero =>
          cases hbv : begins pat (a :: t) with
          | false => exact hbv
          | true => exact absurd hbv hb
        | succ j => exact ih hf j (by omega)

theorem findSub_of_begins {pat l : List Char} {i : Nat}
    (hocc : begins pat (l.drop i) = true)
    (hmin : ∀ j, j < i → begins pat (l.drop j) = false) :
    findSub pat l = some i := by
  induction l generalizing i with
  | nil =>
    cases i with
    | zero => simp_all [findSub]
    | succ i =>
      exfalso
      have h0 : begins pat ([] : List Char) = false := hmin 0 (by omega)
      have h1 : begins pat ([] : List Char) = true := hocc
      rw [h0] at h1; cases h1
  | cons a t ih =>
    cases i with
    | zero =>
      have h1 : begins pat (a :: t) = true := hocc
      simp [findSub, h1]
    | succ i =>
      have h0 : begins pat (a :: t) = false := hmin 0 (by omega)
      have hrec : findSub pat t = some i :=
        ih (by exact hocc) (fun j hj => by exact hmin (j + 1) (by omega))
      simp [findSub, h0, hrec]

theorem containsB_of_begins {pat l : List Char} {j : Nat}
    (h : begins pat (l.drop j) = true) : containsB pat l = true := by
  unfold containsB
  cases hf : findSub pat l with
  | some i => rfl
  | none =>
    exfalso
    -- if findSub is none, no position can carry an occurrence
    induction l generalizing j with
    | nil =>
      simp only [findSub] at hf
      split at hf
      · cases hf
      · next hb => simp only [List.drop_nil] at h; rw [h] at hb; simp at hb
    | cons a t ih =>
      simp only [findSub] at hf
      split at hf
      · cases hf
      · next hb =>
        cases hft : findSub pat t with
        | some k => rw [hft] at hf; cases hf
        | none =>
          cases j with
          | zero => simp only [List.drop_zero] at h; rw [h] at hb; simp at hb
          | succ j => exact ih (j := j) (by simpa using h) hft

theorem not_begins_of_containsB_false {pat l : List Char}
    (h : containsB pat l = false) : ∀ j, begins pat (l.drop j) = false := by
  intro j
  cases hb : begins pat (l.drop j) with
  | false => rfl
  | true => rw [containsB_of_begins hb] at h; cases h

theorem findSub_le_length {pat l : List Char} {i : Nat}
    (h : findSub pat l = some i) : i ≤ l.length := by
  induction l generalizing i with
  | nil =>
    simp only [findSub] at h
    split at h
    · cases h; simp
    · cases h
  | cons a t ih =>
    simp only [findSub] at h
    split at h
    · cases h; simp
    · cases hf : findSub pat t with
      | none => rw [hf] at h; cases h
      | some j =>
        rw [hf] at h
        simp only [Option.map_some'] at h
        cases h
        have := ih hf
        simp only [List.length_cons]
        omega

/-- The end of an occurrence found by `findSub` lies inside the list. -/
theorem findSub_add_length_le {pat l : List Char} {i : Nat}
    (h : findSub pat l = some i) : i + pat.length ≤ l.length := by
  have h1 := findSub_le_length h
  have h2 := begins_length (findSub_some_begins h)
  simp only [List.length_drop] at h2
  omega

/-- An occurrence anywhere inside a middle factor is an occurrence in the whole. -/
theorem containsB_of_middle {pat a m b l : List Char}
    (hdecomp : l = a ++ m ++ b) (h : containsB pat m = true) :
    containsB pat l = true := by
  unfold containsB at h
  cases hf : findSub pat m with
  | none => rw [hf] at h; cases h
  | some i =>
    have hocc := findSub_some_begins hf
    have hle : i ≤ m.length := findSub_le_length hf
    subst hdecomp
    apply containsB_of_begins (j := a.length + i)
    have h1 : (a ++ m ++ b).drop (a.length + i) = m.drop i ++ b := by
      rw [List.append_assoc, List.drop_append, List.drop_append_of_le_length hle]
    rw [h1]
    exact begins_extend hocc

/-! ### Python `str.strip()` -/

/-- The ASCII whitespace recognised by Python's `str.strip()`. -/
def isPySpace (c : Char) : Bool :=
  c = ' ' || c = '\t' || c = '\n' || c = '\r' || c = '\x0b' || c = '\x0c'

/-- Python `str.strip()`: drop whitespace from both ends. -/
def stripWs (l : List Char) : List Char :=
  ((l.dropWhile isPySpace).reverse.dropWhile isPySpace).reverse

/-! ### `_strip_thinking_tokens` (`pipeline.py` lines 48-54) -/

def thinkOpen : List Char := "<think>".toList

def thinkClose : List Char := "</think>".toList

/-- One iteration of the `while` loop of `_strip_thinking_tokens`: state is
`(thoughts, text)`; `s`/`e` are `text.find("<think>")`/`text.find("</think>")`,
the guard of the loop ensures both are present when this runs. -/
def stripStep (st : List Char × List Char) : List Char × List Char :=
  match findSub thinkOpen st.2, findSub thinkClose st.2 with
  | some s, some e =>
      (st.1 ++ stripWs ((st.2.take e).drop (s + 7)) ++ "\n\n".toList,
       st.2.take s ++ st.2.drop (e + 8))
  | _, _ => st

/-- The loop guard `"<think>" in text and "</think>" in text`. -/
def stripCond (text : List Char) : Bool :=
  containsB thinkOpen text && containsB thinkClose text

/-- Run the loop for at most `fuel` iterations; `none` when the guard still
holds after `fuel` iterations (the Python loop would still be running). -/
def stripIter : Nat → List Char × List Char → Option (List Char × List Char)
  | 0, st => if stripCond st.2 then none else some st
  | fuel + 1, st => if stripCond st.2 then stripIter fuel (stripStep st) else some st

/-- `_strip_thinking_tokens(text)`, returning `(thoughts, cleanedText)`. -/
def strip_thinking_tokens (fuel : Nat) (text : List Char) :
    Option (List Char × List Char) :=
  (stripIter fuel ([], text)).map (fun st => (stripWs st.1, stripWs st.2))

/-- The stripper's `while` loop reaches its exit condition on `text`. -/
def stripTerminates (text : List Char) : Prop :=
  ∃ fuel, (stripIter fuel ([], text)).isSome

/-! ### `_normalize_latex` (`pipeline.py` lines 31-46) -/

/-- First occurrence of the two adjacent characters `c1 c2`:
`some (pre, rest)` with the input equal to `pre ++ [c1, c2] ++ rest`. -/
def findTwo (c1 c2 : Char) : List Char → Option (List Char × List Char)
  | [] => none
  | [_] => none
  | a :: b :: t =>
      if a = c1 && b = c2 then some ([], t)
      else (findTwo c1 c2 (b :: t)).map (fun p => (a :: p.1, p.2))

/-- First occurrence of three adjacent copies of `c`. -/
def findTriple (c : Char) : List Char → Option (List Char × List Char)
  | a :: b :: d :: t =>
      if a = c && b = c && d = c then some ([], t)
      else (findTriple c (b :: d :: t)).map (fun p => (a :: p.1, p.2))
  | _ => none

/-- First occurrence of the single character `c`. -/
def findOne (c : Char) : List Char → Option (List Char × List Char)
  | [] => none
  | a :: t =>
      if a = c then some ([], t)
      else (findOne c t).map (fun p => (a :: p.1, p.2))

/-- `re.sub(r"\\\[(.*?)\\\]", r"$$\1$$", seg, flags=re.DOTALL)` and its
parenthesis variant: repeated leftmost-shortest replacement of
`\opn ... \cls` by `wrap ... wrap`; any `fuel ≥ seg.length` performs every
replacement the Python regex performs. -/
def subPairs (opn cls : Char) (wrap : List Char) : Nat → List Char → List Char
  | 0, s => s
  | fuel + 1, s =>
    match findTwo '\\' opn s with
    | none => s
    | some (pre, rest) =>
      match findTwo '\\' cls rest with
      | none => s
      | some (inner, rest2) =>
          pre ++ wrap ++ inner ++ wrap ++ subPairs opn cls wrap fuel rest2

/-- The backquote character. -/
def btick : Char := Char.ofNat 96

/-- Does `rest` (the text right after a backquote) start with two more
backquotes followed eventually by a closing triple?  Mirrors the preferred
first alternative of `_CODE_BLOCK_RE`. -/
def tripleTickAt : List Char → Option (List Char × List Char)
  | a :: b :: rest3 =>
      if a = btick && b = btick then findTriple btick rest3 else none
  | _ => none

/-- `_CODE_BLOCK_RE.split(text)`: the list of alternating non-code and code
parts (code parts, the captured separators, sit at the odd indices). -/
def splitCode : Nat → List Char → List (List Char)
  | 0, s => [s]
  | fuel + 1, s =>
    match findOne btick s with
    | none => [s]
    | some (pre, rest) =>
      match tripleTickAt rest with
      | some (inner, rest4) =>
          pre :: (btick :: btick :: btick :: (inner ++ [btick, btick, btick]))
            :: splitCode fuel rest4
      | none =>
        match findOne btick rest with
        | some (inner, rest2) =>
            pre :: (btick :: (inner ++ [btick])) :: splitCode fuel rest2
        | none => [s]

/-- `for i in range(0, len(parts), 2)`: apply `f` to the even indices only. -/
def mapEven (f : List Char → List Char) : List (List Char) → List (List Char)
  | [] => []
  | [a] => [f a]
  | a :: b :: t => f a :: b :: mapEven f t

/-- The per-segment body of `_normalize_latex`: brackets to `$$ $$`, then
parentheses to `$ $` on the result. -/
def normSeg (s : List Char) : List Char :=
  let s1 := subPairs '[' ']' ['$', '$'] s.length s
  subPairs '(' ')' ['$'] s1.length s1

/-- `_normalize_latex(text)`. -/
def normalize_latex (s : List Char) : List Char :=
  (mapEven normSeg (splitCode s.length s)).flatten

/-! ### JSON values and Python dict access -/

/-- A JSON value as decoded by `json.loads`. -/
inductive Json where
  | null
  | bool (b : Bool)
  | num (n : Int)
  | str (s : String)
  | arr (elems : List Json)
  | obj (members : List (String × Json))

def lookupJson : List (String × Json) → String → Option Json
  | [], _ => none
  | (k, v) :: rest, key => if k = key then some v else lookupJson rest key

/-- Python `content[key]`: `KeyError` when the key is missing, `TypeError`
when `content` is not a dict. -/
def jsonIndex : Json → String → Except String Json
  | .obj ms, key =>
      match lookupJson ms key with
      | some v => .ok v
      | none => .error "KeyError"
  | _, _ => .error "TypeError"

/-- Python `content.get(key)`: `AttributeError` when `content` is not a dict. -/
def dictGet : Json → String → Except String (Option Json)
  | .obj ms, key => .ok (lookupJson ms key)
  | _, _ => .error "AttributeError"

/-- Python truthiness of a decoded JSON value (used by `query or fallback`). -/
def truthy : Json → Bool
  | .null => false
  | .bool b => b
  | .num n => n != 0
  | .str s => s != ""
  | .arr xs => !xs.isEmpty
  | .obj ms => !ms.isEmpty

/-! ### State, updates and the LangGraph merge semantics (`states.py`) -/

/-- `SummaryState`.  `search_query`, `rationale` and `knowledge_gap` hold
whatever value a stage stores in them; the dataclass annotates them `str`
but Python does not enforce that and the stages can store any decoded JSON
value, so they are `Json` here (initialised to the JSON string `""`).
`websocket_id` is never read or written by the pipeline and is omitted. -/
structure SummaryState where
  research_topic : String := ""
  search_query : Json := .str ""
  rationale : Json := .str ""
  web_research_results : List String := []
  sources_gathered : List String := []
  images : List String := []
  research_loop_count : Nat := 0
  running_summary : String := ""
  knowledge_gap : Json := .str ""
  thoughts : String := ""

/-- A partial state update: the dictionary a stage node returns. -/
structure StateUpdate where
  search_query : Option Json := none
  rationale : Option Json := none
  web_research_results : Option (List String) := none
  sources_gathered : Option (List String) := none
  images : Option (List String) := none
  research_loop_count : Option Nat := none
  running_summary : Option String := none
  knowledge_gap : Option Json := none

/-- The LangGraph merge: fields annotated `operator.add` in `states.py`
(`web_research_results`, `sources_gathered`, `images`) are appended to,
every other field present in the update overwrites the old value. -/
def applyUpdate (s : SummaryState) (u : StateUpdate) : SummaryState where
  research_topic := s.research_topic
  search_query := u.search_query.getD s.search_query
  rationale := u.rationale.getD s.rationale
  web_research_results := s.web_research_results ++ u.web_research_results.getD []
  sources_gathered := s.sources_gathered ++ u.sources_gathered.getD []
  images := s.images ++ u.images.getD []
  research_loop_count := u.research_loop_count.getD s.research_loop_count
  running_summary := u.running_summary.getD s.running_summary
  knowledge_gap := u.knowledge_gap.getD s.knowledge_gap
  thoughts := s.thoughts

/-! ### Notifier and events -/

structure SourceRecord where
  title : String := ""
  url : String := ""
  content : String := ""

/-- The Tavily search response: a list of result records plus image URLs. -/
structure SearchResponse where
  results : List SourceRecord := []
  images : List String := []

/-- The payload dictionaries passed to `notify`, one constructor per event. -/
inductive Payload where
  | thinking (thoughts : String)
  | generateQuery (query rationale : Json) (thoughts : String)
  | webResearch (sources : List SourceRecord) (images : List String)
  | summarize (summary : String)
  | reflection (query gap : Json)
  | routing (decision : String) (loop_count : Nat)
  | finalize (summary : String) (images : List String)

abbrev Event := String × Payload

/-- The optional async callback; one call either succeeds or raises. -/
abbrev Notifier := Option (String → Payload → Except String Unit)

/-- `if notify: await notify(event, payload)`: returns the events actually
delivered (none when no notifier is installed), or the exception raised. -/
def callNotify (nf : Notifier) (e : String) (p : Payload) :
    Except String (List Event) :=
  match nf with
  | none => .ok []
  | some f =>
    match f e p with
    | .ok _ => .ok [(e, p)]
    | .error err => .error err

/-- A notifier whose calls never raise. -/
def NoThrow : Notifier → Prop
  | none => True
  | some f => ∀ e p, f e p = .ok ()

/-- The events `callNotify` delivers when the notifier does not raise. -/
def notifEvents (nf : Notifier) (e : String) (p : Payload) : List Event :=
  match nf with
  | none => []
  | some _ => [(e, p)]

theorem callNotify_ok {nf : Notifier} (h : NoThrow nf) (e : String) (p : Payload) :
    callNotify nf e p = .ok (notifEvents nf e p) := by
  cases nf with
  | none => rfl
  | some f =>
    have hf : f e p = .ok () := h e p
    show (match f e p with
          | .ok _ => (Except.ok [(e, p)] : Except String (List Event))
          | .error err => .error err) = Except.ok [(e, p)]
    rw [hf]

theorem callNotify_some_ok {f : String → Payload → Except String Unit}
    {e : String} {p : Payload} (h : f e p = .ok ()) :
    callNotify (some f) e p = .ok [(e, p)] := by
  show (match f e p with
        | .ok _ => (Except.ok [(e, p)] : Except String (List Event))
        | .error err => .error err) = Except.ok [(e, p)]
  rw [h]

theorem callNotify_some_error {f : String → Payload → Except String Unit}
    {e : String} {p : Payload} {err : String} (h : f e p = .error err) :
    callNotify (some f) e p = .error err := by
  show (match f e p with
        | .ok _ => (Except.ok [(e, p)] : Except String (List Event))
        | .error err => .error err) = Except.error err
  rw [h]

/-! ### Pipeline stages (`pipeline.py` lines 56-159)

The model call, the JSON parse of its normalised output (`json.loads`), and
the Tavily search are external collaborators; each stage takes their
outcomes as arguments: `thoughts`/`text` stand for the model output after
`_strip_thinking_tokens` and `_normalize_latex`, `parsed : Option Json` for
the `json.loads` outcome (`none` when the text is not valid JSON), and a
`SearchResponse` plus the two formatter functions of the `formatting`
module (which is imported by `pipeline.py` but is not among the sources
under verification; no claim depends on the formatted text itself, so the
formatters are universally quantified parameters).  Each stage returns the
events delivered followed by either the returned update dictionary or the
exception the stage raises. -/

/-- `generate_query` (lines 56-70). -/
def generate_query (thoughts : String) (parsed : Option Json) (nf : Notifier) :
    List Event × Except String StateUpdate :=
  match callNotify nf "thinking" (.thinking thoughts) with
  | .error e => ([], .error e)
  | .ok ev1 =>
    match parsed with
    | none => (ev1, .error "JSONDecodeError")
    | some q =>
      match jsonIndex q "query" with
      | .error e => (ev1, .error e)
      | .ok rq =>
        match jsonIndex q "rationale" with
        | .error e => (ev1, .error e)
        | .ok ra =>
          match callNotify nf "generate_query" (.generateQuery rq ra thoughts) with
          | .error e => (ev1, .error e)
          | .ok ev2 =>
              (ev1 ++ ev2, .ok { search_query := some rq, rationale := some ra })

/-- `web_research` (lines 72-90).  `dedupFmt`/`srcFmt` stand for
`deduplicate_and_format_sources`/`format_sources`; for lists
`state.images or []` equals `state.images`, so the images entry of the
returned dict is `s.images ++ res.images`. -/
def web_research (s : SummaryState) (res : SearchResponse)
    (dedupFmt srcFmt : SearchResponse → String) (nf : Notifier) :
    List Event × Except String StateUpdate :=
  match callNotify nf "web_research" (.webResearch res.results res.images) with
  | .error e => ([], .error e)
  | .ok ev1 =>
      (ev1, .ok { sources_gathered := some [srcFmt res],
                  research_loop_count := some (s.research_loop_count + 1),
                  web_research_results := some [dedupFmt res],
                  images := some (s.images ++ res.images) })

/-- `summarize_sources` (lines 92-107): `state.web_research_results[-1]`
raises `IndexError` on an empty list; the model call returns
`(thoughts, text)` after normalisation. -/
def summarize_sources (s : SummaryState) (thoughts text : String) (nf : Notifier) :
    List Event × Except String StateUpdate :=
  match s.web_research_results.getLast? with
  | none => ([], .error "IndexError")
  | some _ =>
    match callNotify nf "thinking" (.thinking thoughts) with
    | .error e => ([], .error e)
    | .ok ev1 =>
      match callNotify nf "summarize" (.summarize text) with
      | .error e => (ev1, .error e)
      | .ok ev2 => (ev1 ++ ev2, .ok { running_summary := some text })

/-- `reflect_on_summary` (lines 109-126).  The whole of lines 119-122 sits
inside `try`, including the `reflection` notification; any exception there
(bad JSON, `content` not a dict, a raising notifier) is caught and the
fallback of lines 124-126 runs, whose update sets only `search_query`. -/
def reflect_on_summary (s : SummaryState) (thoughts : String) (parsed : Option Json)
    (nf : Notifier) : List Event × Except String StateUpdate :=
  match callNotify nf "thinking" (.thinking thoughts) with
  | .error e => ([], .error e)
  | .ok ev1 =>
    let tryRes : Except String (List Event × StateUpdate) :=
      match parsed with
      | none => .error "JSONDecodeError"
      | some content =>
        match dictGet content "follow_up_query" with
        | .error e => .error e
        | .ok queryOpt =>
          match dictGet content "knowledge_gap" with
          | .error e => .error e
          | .ok gapOpt =>
            let gap := gapOpt.getD (.str "")
            let fb : String := "Tell me more about " ++ s.research_topic
            let storedQuery : Json :=
              match queryOpt with
              | some v => if truthy v then v else .str fb
              | none => .str fb
            let payloadQuery : Json :=
              match queryOpt with
              | some v => if truthy v then v else .str ""
              | none => .str ""
            match callNotify nf "reflection" (.reflection payloadQuery gap) with
            | .error e => .error e
            | .ok ev2 =>
                .ok (ev2, { search_query := some storedQuery, knowledge_gap := some gap })
    match tryRes with
    | .ok (ev2, u) => (ev1 ++ ev2, .ok u)
    | .error _ =>
      let fb : String := "Tell me more about " ++ s.research_topic
      match callNotify nf "reflection"
          (.reflection (.str fb) (.str "Unable to identify specific knowledge gap")) with
      | .error e => (ev1, .error e)
      | .ok ev2 => (ev1 ++ ev2, .ok { search_query := some (.str fb) })

/-- `finalize_summary` (lines 128-159).  The `image_section` computed on
lines 129-142 is never used by the report or the payload and is omitted. -/
def finalize_summary (s : SummaryState) (nf : Notifier) :
    List Event × Except String StateUpdate :=
  let final := s.sources_gathered.foldl (fun acc src => acc ++ src ++ "\n")
      ("## Summary\n" ++ s.running_summary ++ "\n\n### Sources:\n")
  match callNotify nf "finalize" (.finalize final (s.images.take 2)) with
  | .error e => ([], .error e)
  | .ok ev1 => (ev1, .ok { running_summary := some final })

/-- `route_research` (lines 192-199): the name of the next node. -/
def route_research (s : SummaryState) (nf : Notifier) :
    List Event × Except String String :=
  if s.research_loop_count ≤ 3 then
    match callNotify nf "routing" (.routing "continue" s.research_loop_count) with
    | .error e => ([], .error e)
    | .ok ev => (ev, .ok "web_research")
  else
    match callNotify nf "routing" (.routing "finalize" s.research_loop_count) with
    | .error e => ([], .error e)
    | .ok ev => (ev, .ok "finalize_summary")

/-! ### The compiled graph (`setup_graph`, lines 161-203) -/

/-- The external inputs consumed by one `web_research → summarize → reflect`
round. -/
structure RoundInput where
  res : SearchResponse := {}
  sumThoughts : String := ""
  sumText : String := ""
  reflThoughts : String := ""
  reflParsed : Option Json := none

/-- One loop round: `web_research`, `summarize_sources`,
`reflect_on_summary`, each followed by the LangGraph merge. -/
def runRound (dedupFmt srcFmt : SearchResponse → String) (nf : Notifier)
    (s : SummaryState) (inp : RoundInput) :
    List Event × Except String SummaryState :=
  match web_research s inp.res dedupFmt srcFmt nf with
  | (evs, .error e) => (evs, .error e)
  | (evs, .ok u1) =>
    let s1 := applyUpdate s u1
    match summarize_sources s1 inp.sumThoughts inp.sumText nf with
    | (ev2, .error e) => (evs ++ ev2, .error e)
    | (ev2, .ok u2) =>
      let s2 := applyUpdate s1 u2
      match reflect_on_summary s2 inp.reflThoughts inp.reflParsed nf with
      | (ev3, .error e) => (evs ++ ev2 ++ ev3, .error e)
      | (ev3, .ok u3) => (evs ++ ev2 ++ ev3, .ok (applyUpdate s2 u3))

/-- A straight sequence of rounds (no routing): used to state the
"after N completed web-research rounds" invariant. -/
def runRounds (dedupFmt srcFmt : SearchResponse → String) (nf : Notifier) :
    SummaryState → List RoundInput → List Event × Except String SummaryState
  | s, [] => ([], .ok s)
  | s, inp :: rest =>
    match runRound dedupFmt srcFmt nf s inp with
    | (evs, .error e) => (evs, .error e)
    | (evs, .ok s1) =>
      match runRounds dedupFmt srcFmt nf s1 rest with
      | (ev2, r) => (evs ++ ev2, r)

/-- The loop of the compiled graph, entered at `web_research`: run one round,
ask `route_research`, loop back or finalize.  Returns the final state and the
number of `web_research` invocations.  `fuel` bounds the loop; the error
`"OutOfFuel"` never occurs for `fuel > rounds` actually executed. -/
def runFromWeb (dedupFmt srcFmt : SearchResponse → String) (nf : Notifier) :
    Nat → SummaryState → List RoundInput →
    List Event × Except String (SummaryState × Nat)
  | 0, _, _ => ([], .error "OutOfFuel")
  | _ + 1, _, [] => ([], .error "NoSearchInput")
  | fuel + 1, s, inp :: rest =>
    match runRound dedupFmt srcFmt nf s inp with
    | (evs, .error e) => (evs, .error e)
    | (evs, .ok s1) =>
      match route_research s1 nf with
      | (evr, .error e) => (evs ++ evr, .error e)
      | (evr, .ok dec) =>
        if dec = "web_research" then
          match runFromWeb dedupFmt srcFmt nf fuel s1 rest with
          | (ev2, .error e) => (evs ++ evr ++ ev2, .error e)
          | (ev2, .ok (sf, n)) => (evs ++ evr ++ ev2, .ok (sf, n + 1))
        else
          match finalize_summary s1 nf with
          | (evf, .error e) => (evs ++ evr ++ evf, .error e)
          | (evf, .ok u) => (evs ++ evr ++ evf, .ok (applyUpdate s1 u, 1))

/-- The state built by `graph.ainvoke({"research_topic": topic, "images": []})`. -/
def initState (topic : String) : SummaryState := { research_topic := topic }

/-- A full run of the compiled graph: `generate_query`, then the
`web_research → summarize → reflect → route` loop until the router picks
`finalize_summary`, then `finalize_summary`.  Returns the final state and
the number of `web_research` rounds executed. -/
def runFull (dedupFmt srcFmt : SearchResponse → String) (nf : Notifier)
    (topic genThoughts : String) (genParsed : Option Json)
    (rounds : List RoundInput) (fuel : Nat) :
    List Event × Except String (SummaryState × Nat) :=
  match generate_query genThoughts genParsed nf with
  | (evs, .error e) => (evs, .error e)
  | (evs, .ok u) =>
    match runFromWeb dedupFmt srcFmt nf fuel (applyUpdate (initState topic) u) rounds with
    | (ev2, r) => (evs ++ ev2, r)

/-- `run_deep_research` (lines 205-210): the final `running_summary` of an
error-free run; any stage exception propagates unchanged. -/
def run_deep_research (dedupFmt srcFmt : SearchResponse → String) (nf : Notifier)
    (topic genThoughts : String) (genParsed : Option Json)
    (rounds : List RoundInput) (fuel : Nat) :
    List Event × Except String String :=
  match runFull dedupFmt srcFmt nf topic genThoughts genParsed rounds fuel with
  | (evs, .error e) => (evs, .error e)
  | (evs, .ok (sf, _)) => (evs, .ok sf.running_summary)

/-! ### Shape of each stage's successful update -/

theorem web_research_ok {s : SummaryState} {res : SearchResponse}
    {dedupFmt srcFmt : SearchResponse → String} {nf : Notifier}
    {evs : List Event} {u : StateUpdate}
    (h : web_research s res dedupFmt srcFmt nf = (evs, .ok u)) :
    u = { sources_gathered := some [srcFmt res],
          research_loop_count := some (s.research_loop_count + 1),
          web_research_results := some [dedupFmt res],
          images := some (s.images ++ res.images) } := by
  unfold web_research at h
  split at h
  · injection h with h1 h2; exact Except.noConfusion h2
  · injection h with h1 h2; injection h2 with h3; exact h3.symm

theorem generate_query_ok {thoughts : String} {parsed : Option Json} {nf : Notifier}
    {evs : List Event} {u : StateUpdate}
    (h : generate_query thoughts parsed nf = (evs, .ok u)) :
    ∃ rq ra, u = { search_query := some rq, rationale := some ra } := by
  unfold generate_query at h
  repeat' split at h
  all_goals first
    | (injection h with h1 h2; exact Except.noConfusion h2)
    | (injection h with h1 h2; injection h2 with h3; exact ⟨_, _, h3.symm⟩)

theorem summarize_sources_ok {s : SummaryState} {thoughts text : String}
    {nf : Notifier} {evs : List Event} {u : StateUpdate}
    (h : summarize_sources s thoughts text nf = (evs, .ok u)) :
    u = { running_summary := some text } := by
  unfold summarize_sources at h
  repeat' split at h
  all_goals first
    | (injection h with h1 h2; exact Except.noConfusion h2)
    | (injection h with h1 h2; injection h2 with h3; exact h3.symm)

theorem reflect_on_summary_ok {s : SummaryState} {thoughts : String}
    {parsed : Option Json} {nf : Notifier} {evs : List Event} {u : StateUpdate}
    (h : reflect_on_summary s thoughts parsed nf = (evs, .ok u)) :
    u.web_research_results = none ∧ u.sources_gathered = none ∧
      u.research_loop_count = none := by
  unfold reflect_on_summary at h
  split at h
  · injection h with h1 h2; exact Except.noConfusion h2
  · dsimp only at h
    split at h
    · next ev2 u2 heq =>
      injection h with h1 h2
      injection h2 with h3
      subst h3
      repeat' split at heq
      all_goals first
        | exact Except.noConfusion heq
        | (injection heq with h4; injection h4 with h5 h6;
           refine ⟨?_, ?_, ?_⟩ <;> rw [← h6])
    · split at h
      · injection h with h1 h2; exact Except.noConfusion h2
      · injection h with h1 h2
        injection h2 with h3
        refine ⟨?_, ?_, ?_⟩ <;> rw [← h3]

theorem finalize_summary_ok {s : SummaryState} {nf : Notifier}
    {evs : List Event} {u : StateUpdate}
    (h : finalize_summary s nf = (evs, .ok u)) :
    u = { running_summary := some (s.sources_gathered.foldl
            (fun acc src => acc ++ src ++ "\n")
            ("## Summary\n" ++ s.running_summary ++ "\n\n### Sources:\n")) } := by
  unfold finalize_summary at h
  dsimp only at h
  repeat' split at h
  all_goals first
    | (injection h with h1 h2; exact Except.noConfusion h2)
    | (injection h with h1 h2; injection h2 with h3; exact h3.symm)

theorem route_research_ok {s : SummaryState} {nf : Notifier}
    {evr : List Event} {dec : String}
    (h : route_research s nf = (evr, .ok dec)) :
    dec = if s.research_loop_count ≤ 3 then "web_research" else "finalize_summary" := by
  unfold route_research at h
  split at h
  · next hcond =>
    rw [if_pos hcond]
    split at h
    · injection h with h1 h2; exact Except.noConfusion h2
    · injection h with h1 h2; injection h2 with h3; exact h3.symm
  · next hcond =>
    rw [if_neg hcond]
    split at h
    · injection h with h1 h2; exact Except.noConfusion h2
    · injection h with h1 h2; injection h2 with h3; exact h3.symm

/-- One complete round bumps the counter by one and appends exactly one
context block and one citation block. -/
theorem runRound_ok {dedupFmt srcFmt : SearchResponse → String} {nf : Notifier}
    {s : SummaryState} {inp : RoundInput} {evs : List Event} {s3 : SummaryState}
    (h : runRound dedupFmt srcFmt nf s inp = (evs, .ok s3)) :
    s3.research_loop_count = s.research_loop_count + 1 ∧
    s3.web_research_results = s.web_research_results ++ [dedupFmt inp.res] ∧
    s3.sources_gathered = s.sources_gathered ++ [srcFmt inp.res] := by
  unfold runRound at h
  split at h
  · injection h with h1 h2; exact Except.noConfusion h2
  · next evw u1 hw =>
    dsimp only at h
    split at h
    · injection h with h1 h2; exact Except.noConfusion h2
    · next ev2 u2 hsum =>
      split at h
      · injection h with h1 h2; exact Except.noConfusion h2
      · next ev3 u3 hrefl =>
        injection h with h1 h2; injection h2 with h3
        obtain ⟨hr1, hr2, hr3⟩ := reflect_on_summary_ok hrefl
        rw [web_research_ok hw] at h3
        rw [summarize_sources_ok hsum] at h3
        subst h3
        simp [applyUpdate, hr1, hr2, hr3]

/-- After `N` completed rounds the counter has grown by `N` and each of the
two accumulation lists by `N` entries. -/
theorem runRounds_counts {dedupFmt srcFmt : SearchResponse → String} {nf : Notifier} :
    ∀ (inps : List RoundInput) (s : SummaryState) (evs : List Event) (sf : SummaryState),
    runRounds dedupFmt srcFmt nf s inps = (evs, .ok sf) →
    sf.research_loop_count = s.research_loop_count + inps.length ∧
    sf.web_research_results.length = s.web_research_results.length + inps.length ∧
    sf.sources_gathered.length = s.sources_gathered.length + inps.length := by
  intro inps
  induction inps with
  | nil =>
    intro s evs sf h
    unfold runRounds at h
    injection h with h1 h2
    injection h2 with h3
    subst h3
    simp
  | cons inp rest ih =>
    intro s evs sf h
    unfold runRounds at h
    split at h
    · injection h with h1 h2; exact Except.noConfusion h2
    · next evw s1 hround =>
      split at h
      · next ev2 r heq =>
        injection h with h1 h2
        subst h2
        obtain ⟨hc, hw, hs⟩ := runRound_ok hround
        obtain ⟨ic, iw, is'⟩ := ih s1 ev2 sf heq
        refine ⟨?_, ?_, ?_⟩ <;> simp_all <;> omega

/-- The loop executes `4 - loopCount` further rounds when entered at
`web_research` with `loopCount ≤ 3`. -/
theorem runFromWeb_rounds {dedupFmt srcFmt : SearchResponse → String} {nf : Notifier} :
    ∀ (fuel : Nat) (s : SummaryState) (inps : List RoundInput)
      (evs : List Event) (sf : SummaryState) (n : Nat),
    runFromWeb dedupFmt srcFmt nf fuel s inps = (evs, .ok (sf, n)) →
    s.research_loop_count ≤ 3 →
    n = 4 - s.research_loop_count := by
  intro fuel
  induction fuel with
  | zero =>
    intro s inps evs sf n h hle
    unfold runFromWeb at h
    injection h with h1 h2; exact Except.noConfusion h2
  | succ fuel ih =>
    intro s inps evs sf n h hle
    match inps with
    | [] =>
      unfold runFromWeb at h
      injection h with h1 h2; exact Except.noConfusion h2
    | inp :: rest =>
      unfold runFromWeb at h
      split at h
      · injection h with h1 h2; exact Except.noConfusion h2
      · next evw s1 hround =>
        split at h
        · injection h with h1 h2; exact Except.noConfusion h2
        · next evr dec hroute =>
          obtain ⟨hc, -, -⟩ := runRound_ok hround
          have hdec := route_research_ok hroute
          split at h
          · -- routed back to web_research
            next hweb =>
            split at h
            · injection h with h1 h2; exact Except.noConfusion h2
            · next ev2 sf' n' heq =>
              injection h with h1 h2
              injection h2 with h3
              injection h3 with h4 h5
              have hs1 : s1.research_loop_count ≤ 3 := by
                by_contra hgt
                rw [if_neg hgt] at hdec
                rw [hdec] at hweb
                exact absurd hweb (by decide)
              have hn' := ih s1 rest ev2 sf' n' heq hs1
              omega
          · -- routed to finalize_summary
            next hnotweb =>
            have hs1 : ¬ s1.research_loop_count ≤ 3 := by
              intro hle1
              rw [if_pos hle1] at hdec
              exact hnotweb hdec
            split at h
            · injection h with h1 h2; exact Except.noConfusion h2
            · next evf u hfin =>
              injection h with h1 h2
              injection h2 with h3
              injection h3 with h4 h5
              omega

/-! ### Claim C1 -/

/-- C1: the routing decision is a deterministic pure function of the loop
counter: with a non-raising notifier, every state whose
`research_loop_count` is 0, 1, 2 or 3 routes to `web_research` and every
state with `research_loop_count ≥ 4` routes to `finalize_summary`;
consequently every error-free full run executes exactly 4 web-research
rounds before finalizing. -/
theorem C1_routing_four_rounds :
    (∀ (nf : Notifier) (s : SummaryState), NoThrow nf →
      (s.research_loop_count = 0 ∨ s.research_loop_count = 1 ∨
       s.research_loop_count = 2 ∨ s.research_loop_count = 3) →
      route_research s nf =
        (notifEvents nf "routing" (.routing "continue" s.research_loop_count),
         .ok "web_research")) ∧
    (∀ (nf : Notifier) (s : SummaryState), NoThrow nf →
      4 ≤ s.research_loop_count →
      route_research s nf =
        (notifEvents nf "routing" (.routing "finalize" s.research_loop_count),
         .ok "finalize_summary")) ∧
    (∀ (dedupFmt srcFmt : SearchResponse → String) (nf : Notifier)
       (topic genThoughts : String) (genParsed : Option Json)
       (rounds : List RoundInput) (fuel : Nat) (evs : List Event)
       (sf : SummaryState) (n : Nat),
      runFull dedupFmt srcFmt nf topic genThoughts genParsed rounds fuel
        = (evs, .ok (sf, n)) → n = 4) := by
  refine ⟨?_, ?_, ?_⟩
  · intro nf s hnf hc
    have hle : s.research_loop_count ≤ 3 := by rcases hc with h | h | h | h <;> omega
    unfold route_research
    rw [if_pos hle, callNotify_ok hnf]
  · intro nf s hnf hge
    unfold route_research
    rw [if_neg (by omega), callNotify_ok hnf]
  · intro dedupFmt srcFmt nf topic gth gp rounds fuel evs sf n h
    unfold runFull at h
    split at h
    · injection h with h1 h2; exact Except.noConfusion h2
    · next evg u hgen =>
      split at h
      next ev2 r heq =>
      injection h with h1 h2
      subst h2
      obtain ⟨rq, ra, hu⟩ := generate_query_ok hgen
      have hcount : (applyUpdate (initState topic) u).research_loop_count = 0 := by
        subst hu; simp [applyUpdate, initState]
      have hres := runFromWeb_rounds fuel _ rounds ev2 sf n heq (by omega)
      omega

theorem C1_witness :
    route_research { research_loop_count := 2 } none = ([], .ok "web_research") ∧
    route_research { research_loop_count := 4 } none = ([], .ok "finalize_summary") ∧
    (match (runFull (fun _ => "ctx") (fun _ => "src") none "t" ""
        (some (.obj [("query", .str "q"), ("rationale", .str "r")]))
        (List.replicate 9 {}) 10).2 with
     | .ok (_, n) => n
     | .error _ => 4) = 4 := by
  refine ⟨C1_routing_four_rounds.1 none _ True.intro (by decide),
          C1_routing_four_rounds.2.1 none _ True.intro (by decide), ?_⟩
  cases hr : (runFull (fun _ => "ctx") (fun _ => "src") none "t" ""
      (some (.obj [("query", .str "q"), ("rationale", .str "r")]))
      (List.replicate 9 {}) 10).2 with
  | error e => rfl
  | ok p =>
    obtain ⟨sf, n⟩ := p
    have h := C1_routing_four_rounds.2.2 (fun _ => "ctx") (fun _ => "src") none "t" ""
      (some (.obj [("query", .str "q"), ("rationale", .str "r")]))
      (List.replicate 9 {}) 10
      (runFull (fun _ => "ctx") (fun _ => "src") none "t" ""
        (some (.obj [("query", .str "q"), ("rationale", .str "r")]))
        (List.replicate 9 {}) 10).1 sf n (by rw [← hr])
    simpa using h

/-! ### Claim C2 -/

/-- C2: `web_research` appends exactly one formatted context block, exactly
one citation block and increments the loop counter by exactly one; none of
the other stages modifies `web_research_results`, `sources_gathered` or
`research_loop_count`; hence after N completed rounds from the initial
state the counter equals N and both lists have length N. -/
theorem C2_accumulation_invariant :
    (∀ (s : SummaryState) (res : SearchResponse)
       (dedupFmt srcFmt : SearchResponse → String) (nf : Notifier)
       (evs : List Event) (u : StateUpdate),
      web_research s res dedupFmt srcFmt nf = (evs, .ok u) →
      (applyUpdate s u).research_loop_count = s.research_loop_count + 1 ∧
      (applyUpdate s u).web_research_results
        = s.web_research_results ++ [dedupFmt res] ∧
      (applyUpdate s u).sources_gathered = s.sources_gathered ++ [srcFmt res]) ∧
    (∀ (thoughts : String) (parsed : Option Json) (nf : Notifier)
       (evs : List Event) (u : StateUpdate) (s : SummaryState),
      generate_query thoughts parsed nf = (evs, .ok u) →
      (applyUpdate s u).research_loop_count = s.research_loop_count ∧
      (applyUpdate s u).web_research_results = s.web_research_results ∧
      (applyUpdate s u).sources_gathered = s.sources_gathered) ∧
    (∀ (s' : SummaryState) (thoughts text : String) (nf : Notifier)
       (evs : List Event) (u : StateUpdate) (s : SummaryState),
      summarize_sources s' thoughts text nf = (evs, .ok u) →
      (applyUpdate s u).research_loop_count = s.research_loop_count ∧
      (applyUpdate s u).web_research_results = s.web_research_results ∧
      (applyUpdate s u).sources_gathered = s.sources_gathered) ∧
    (∀ (s' : SummaryState) (thoughts : String) (parsed : Option Json)
       (nf : Notifier) (evs : List Event) (u : StateUpdate) (s : SummaryState),
      reflect_on_summary s' thoughts parsed nf = (evs, .ok u) →
      (applyUpdate s u).research_loop_count = s.research_loop_count ∧
      (applyUpdate s u).web_research_results = s.web_research_results ∧
      (applyUpdate s u).sources_gathered = s.sources_gathered) ∧
    (∀ (s' : SummaryState) (nf : Notifier)
       (evs : List Event) (u : StateUpdate) (s : SummaryState),
      finalize_summary s' nf = (evs, .ok u) →
      (applyUpdate s u).research_loop_count = s.research_loop_count ∧
      (applyUpdate s u).web_research_results = s.web_research_results ∧
      (applyUpdate s u).sources_gathered = s.sources_gathered) ∧
    (∀ (dedupFmt srcFmt : SearchResponse → String) (nf : Notifier)
       (inps : List RoundInput) (s0 : SummaryState)
       (evs : List Event) (sf : SummaryState),
      runRounds dedupFmt srcFmt nf s0 inps = (evs, .ok sf) →
      s0.research_loop_count = 0 → s0.web_research_results = [] →
      s0.sources_gathered = [] →
      sf.research_loop_count = inps.length ∧
      sf.web_research_results.length = inps.length ∧
      sf.sources_gathered.length = inps.length) := by
  refine ⟨?_, ?_, ?_, ?_, ?_, ?_⟩
  · intro s res dedupFmt srcFmt nf evs u h
    rw [web_research_ok h]
    simp [applyUpdate]
  · intro thoughts parsed nf evs u s h
    obtain ⟨rq, ra, hu⟩ := generate_query_ok h
    subst hu
    simp [applyUpdate]
  · intro s' thoughts text nf evs u s h
    rw [summarize_sources_ok h]
    simp [applyUpdate]
  · intro s' thoughts parsed nf evs u s h
    obtain ⟨h1, h2, h3⟩ := reflect_on_summary_ok h
    simp [applyUpdate, h1, h2, h3]
  · intro s' nf evs u s h
    rw [finalize_summary_ok h]
    simp [applyUpdate]
  · intro dedupFmt srcFmt nf inps s0 evs sf h h0 hw hs
    obtain ⟨h1, h2, h3⟩ := runRounds_counts inps s0 evs sf h
    rw [h0] at h1
    rw [hw] at h2
    rw [hs] at h3
    simp at h2 h3
    exact ⟨by omega, h2, h3⟩

theorem C2_witness :
    (applyUpdate (initState "t")
        { sources_gathered := some ["src"], research_loop_count := some 1,
          web_research_results := some ["ctx"],
          images := some [] }).research_loop_count
      = (initState "t").research_loop_count + 1 ∧
    (match (runRounds (fun _ => "ctx") (fun _ => "src") none (initState "t")
        (List.replicate 2 {})).2 with
     | .ok sf => sf.research_loop_count
     | .error _ => 0) = 2 := by
  constructor
  · exact (C2_accumulation_invariant.1 (initState "t") {} (fun _ => "ctx")
      (fun _ => "src") none [] _ rfl).1
  · cases hr : (runRounds (fun _ => "ctx") (fun _ => "src") none (initState "t")
        (List.replicate 2 {})).2 with
    | error e =>
      have hco : (match (runRounds (fun _ => "ctx") (fun _ => "src") none (initState "t")
          (List.replicate 2 {})).2 with
        | .ok _ => true
        | .error _ => false) = true := by decide
      rw [hr] at hco
      cases hco
    | ok sf =>
      have h := (C2_accumulation_invariant.2.2.2.2.2 (fun _ => "ctx") (fun _ => "src")
        none (List.replicate 2 {}) (initState "t")
        (runRounds (fun _ => "ctx") (fun _ => "src") none (initState "t")
          (List.replicate 2 {})).1 sf (by rw [← hr]) rfl rfl rfl).1
      simpa using h


/-! ### Claim C3 -/

/-- C3 counterexample: on unparseable reflection output the returned state
update does NOT set `knowledge_gap`: merged into a state whose
`knowledge_gap` is `"old gap"`, the field still holds `"old gap"`, not the
fixed diagnostic string (which only appears in the event payload). -/
theorem C3_counterexample :
    (reflect_on_summary { research_topic := "T", knowledge_gap := .str "old gap" }
        "th" none none).2
      = .ok { search_query := some (.str "Tell me more about T") } ∧
    (applyUpdate { research_topic := "T", knowledge_gap := .str "old gap" }
        { search_query := some (.str "Tell me more about T") }).knowledge_gap
      = .str "old gap" ∧
    Json.str "old gap" ≠ Json.str "Unable to identify specific knowledge gap" := by
  refine ⟨rfl, rfl, ?_⟩
  intro h
  injection h with h1
  exact absurd h1 (by decide)

/-- C3 (amended): on a model response that is not valid structured data the
Reflect stage does not raise: it emits a `reflection` event whose payload
carries the templated follow-up query `"Tell me more about {topic}"` and the
fixed diagnostic string `"Unable to identify specific knowledge gap"`, and
returns the update `{search_query: "Tell me more about {topic}"}`;
`knowledge_gap` is not part of the returned update, so the merged state's
`knowledge_gap` keeps its previous value. -/
theorem C3_reflect_fallback (thoughts : String) (s : SummaryState)
    (f : String → Payload → Except String Unit)
    (h1 : f "thinking" (.thinking thoughts) = .ok ())
    (h2 : f "reflection" (.reflection
            (.str ("Tell me more about " ++ s.research_topic))
            (.str "Unable to identify specific knowledge gap")) = .ok ()) :
    reflect_on_summary s thoughts none (some f)
      = ([("thinking", .thinking thoughts),
          ("reflection", .reflection
            (.str ("Tell me more about " ++ s.research_topic))
            (.str "Unable to identify specific knowledge gap"))],
         .ok { search_query := some (.str ("Tell me more about " ++ s.research_topic)) }) ∧
    (applyUpdate s
        { search_query := some (.str ("Tell me more about " ++ s.research_topic)) }).knowledge_gap
      = s.knowledge_gap := by
  have hc1 := callNotify_some_ok h1
  have hc2 := callNotify_some_ok h2
  constructor
  · unfold reflect_on_summary
    rw [hc1]
    dsimp only
    rw [hc2]
    rfl
  · simp [applyUpdate]

theorem C3_witness :
    reflect_on_summary { research_topic := "T" } "th" none
        (some (fun _ _ => .ok ()))
      = ([("thinking", .thinking "th"),
          ("reflection", .reflection (.str "Tell me more about T")
            (.str "Unable to identify specific knowledge gap"))],
         .ok { search_query := some (.str "Tell me more about T") }) :=
  (C3_reflect_fallback "th" { research_topic := "T" }
    (fun _ _ => .ok ()) rfl rfl).1

/-! ### Claim C10 -/

/-- C10: reflection output that parses as a JSON object whose
`follow_up_query` entry is missing or null does not raise and does not take
the exception fallback: the update sets `search_query` to the templated
follow-up and `knowledge_gap` to the parsed value (the JSON string `""`
when the key is absent) — unlike the fallback path, which would leave
`knowledge_gap` out of the update. -/
theorem C10_reflect_null_query (s : SummaryState) (thoughts : String)
    (ms : List (String × Json)) (nf : Notifier) (hnf : NoThrow nf)
    (hq : lookupJson ms "follow_up_query" = none ∨
          lookupJson ms "follow_up_query" = some .null) :
    (reflect_on_summary s thoughts (some (.obj ms)) nf).2
      = .ok { search_query := some (.str ("Tell me more about " ++ s.research_topic)),
              knowledge_gap := some ((lookupJson ms "knowledge_gap").getD (.str "")) } := by
  unfold reflect_on_summary
  rw [callNotify_ok hnf]
  dsimp only [dictGet]
  rcases hq with hq | hq
  all_goals
    rw [hq]
    dsimp only
    rw [callNotify_ok hnf]
    try rfl

theorem C10_witness :
    (reflect_on_summary { research_topic := "T" } "th"
        (some (.obj [("knowledge_gap", .str "the gap")])) none).2
      = .ok { search_query := some (.str "Tell me more about T"),
              knowledge_gap := some (.str "the gap") } :=
  C10_reflect_null_query { research_topic := "T" } "th"
    [("knowledge_gap", .str "the gap")] none True.intro (Or.inl rfl)

/-! ### Claim C4 -/

/-- C4 counterexample: a notifier whose call raises aborts the stage and the
whole run: `generate_query` returns the notifier's exception instead of its
normal state update, and the full run fails with that exception — nothing in
the pipeline or the orchestrator swallows it. -/
theorem C4_counterexample :
    generate_query "th" (some (.obj [("query", .str "q"), ("rationale", .str "r")]))
        (some (fun _ _ => .error "notifier boom"))
      = ([], .error "notifier boom") ∧
    (runFull (fun _ => "ctx") (fun _ => "src")
        (some (fun _ _ => .error "notifier boom")) "t" ""
        (some (.obj [("query", .str "q"), ("rationale", .str "r")]))
        (List.replicate 9 {}) 10).2
      = .error "notifier boom" := ⟨rfl, rfl⟩

/-- C4 (amended): a raising notifier call is not swallowed at any pipeline
or orchestrator boundary: the exception propagates unchanged out of the
stage, the stage produces no state update, and the run aborts with that
exception (only the caller of `run_deep_research` can catch it). -/
theorem C4_notifier_error_propagates (thoughts : String) (parsed : Option Json)
    (f : String → Payload → Except String Unit) (err : String)
    (h : f "thinking" (.thinking thoughts) = .error err) :
    generate_query thoughts parsed (some f) = ([], .error err) ∧
    (∀ (dedupFmt srcFmt : SearchResponse → String) (topic : String)
       (rounds : List RoundInput) (fuel : Nat),
      (run_deep_research dedupFmt srcFmt (some f) topic thoughts parsed rounds fuel).2
        = .error err) := by
  have hc := callNotify_some_error h
  have hgen : generate_query thoughts parsed (some f) = ([], .error err) := by
    unfold generate_query; rw [hc]
  refine ⟨hgen, ?_⟩
  intro dedupFmt srcFmt topic rounds fuel
  unfold run_deep_research runFull
  rw [hgen]

theorem C4_witness :
    generate_query "th" none (some (fun _ _ => .error "boom")) = ([], .error "boom") ∧
    (run_deep_research (fun _ => "ctx") (fun _ => "src")
        (some (fun _ _ => .error "boom")) "t" "th" none [] 5).2 = .error "boom" := by
  have h := C4_notifier_error_propagates "th" none (fun _ _ => .error "boom") "boom" rfl
  exact ⟨h.1, h.2 (fun _ => "ctx") (fun _ => "src") "t" [] 5⟩

/-! ### Claim C5 -/

/-- C5: query-generation output that is not parseable JSON raises
`JSONDecodeError`; the error propagates unchanged through the graph to the
top-level caller (no retry, no partial report is produced); on parseable
output the stage returns the parsed query and rationale as the new
`search_query` and `rationale`. -/
theorem C5_generate_query_parse :
    (∀ (thoughts : String) (nf : Notifier), NoThrow nf →
      generate_query thoughts none nf
        = (notifEvents nf "thinking" (.thinking thoughts), .error "JSONDecodeError")) ∧
    (∀ (dedupFmt srcFmt : SearchResponse → String) (nf : Notifier)
       (topic thoughts : String) (rounds : List RoundInput) (fuel : Nat),
      NoThrow nf →
      (run_deep_research dedupFmt srcFmt nf topic thoughts none rounds fuel).2
        = .error "JSONDecodeError") ∧
    (∀ (thoughts : String) (nf : Notifier) (ms : List (String × Json)) (rq ra : Json),
      NoThrow nf →
      lookupJson ms "query" = some rq →
      lookupJson ms "rationale" = some ra →
      (generate_query thoughts (some (.obj ms)) nf).2
        = .ok { search_query := some rq, rationale := some ra }) := by
  have hfail : ∀ (thoughts : String) (nf : Notifier), NoThrow nf →
      generate_query thoughts none nf
        = (notifEvents nf "thinking" (.thinking thoughts), .error "JSONDecodeError") := by
    intro thoughts nf hnf
    unfold generate_query
    rw [callNotify_ok hnf]
  refine ⟨hfail, ?_, ?_⟩
  · intro dedupFmt srcFmt nf topic thoughts rounds fuel hnf
    unfold run_deep_research runFull
    rw [hfail thoughts nf hnf]
  · intro thoughts nf ms rq ra hnf hq hr
    unfold generate_query
    rw [callNotify_ok hnf]
    dsimp only [jsonIndex]
    rw [hq, hr]
    dsimp only
    rw [callNotify_ok hnf]

theorem C5_witness :
    generate_query "th" none none = ([], .error "JSONDecodeError") ∧
    (run_deep_research (fun _ => "ctx") (fun _ => "src") none "t" "th" none [] 5).2
      = .error "JSONDecodeError" ∧
    (generate_query "th" (some (.obj [("query", .str "q"), ("rationale", .str "r")]))
        none).2
      = .ok { search_query := some (.str "q"), rationale := some (.str "r") } :=
  ⟨C5_generate_query_parse.1 "th" none True.intro,
   C5_generate_query_parse.2.1 (fun _ => "ctx") (fun _ => "src") none "t" "th" [] 5
     True.intro,
   C5_generate_query_parse.2.2 "th" none
     [("query", .str "q"), ("rationale", .str "r")] (.str "q") (.str "r")
     True.intro rfl rfl⟩

/-! ### Claim C6 -/

/-- The `### Sources` tail of the final report: the gathered citation blocks
in round order, one per line. -/
def renderSources : List String → String
  | [] => ""
  | src :: rest => src ++ "\n" ++ renderSources rest

theorem foldl_renderSources (l : List String) :
    ∀ b : String, l.foldl (fun acc src => acc ++ src ++ "\n") b = b ++ renderSources l := by
  induction l with
  | nil => intro b; simp [renderSources, List.foldl_nil, String.append_empty]
  | cons src rest ih =>
    intro b
    simp only [List.foldl_cons, renderSources, ih]
    simp only [String.append_assoc]

/-- C6: `finalize_summary` produces the report `"## Summary) header, running
summary, then all gathered citation blocks in round order, and emits one
`finalize` event whose payload carries that report together with exactly the
first `min 2 (length images)` accumulated image URLs in discovery order; in
particular for `images = [u1, u2, u3]` the payload's images are `[u1, u2]`. -/
theorem C6_finalize_report (s : SummaryState) (nf : Notifier) (hnf : NoThrow nf) :
    finalize_summary s nf
      = (notifEvents nf "finalize"
           (.finalize ("## Summary\n" ++ s.running_summary ++ "\n\n### Sources:\n"
              ++ renderSources s.sources_gathered) (s.images.take 2)),
         .ok { running_summary := some ("## Summary\n" ++ s.running_summary
              ++ "\n\n### Sources:\n" ++ renderSources s.sources_gathered) }) ∧
    (s.images.take 2).length = min 2 s.images.length ∧
    (∀ u1 u2 u3 : String, s.images = [u1, u2, u3] → s.images.take 2 = [u1, u2]) := by
  refine ⟨?_, ?_, ?_⟩
  · unfold finalize_summary
    dsimp only
    rw [foldl_renderSources, callNotify_ok hnf]
  · simp [List.length_take]
  · intro u1 u2 u3 himg
    rw [himg]
    rfl

theorem C6_witness :
    finalize_summary
        { running_summary := "SUM", sources_gathered := ["s1", "s2"],
          images := ["u1", "u2", "u3"] } (some (fun _ _ => .ok ()))
      = ([("finalize", .finalize "## Summary\nSUM\n\n### Sources:\ns1\ns2\n"
            ["u1", "u2"])],
         .ok { running_summary := some "## Summary\nSUM\n\n### Sources:\ns1\ns2\n" }) ∧
    List.take 2 ["u1", "u2", "u3"] = ["u1", "u2"] := by
  have h := C6_finalize_report
    { running_summary := "SUM", sources_gathered := ["s1", "s2"],
      images := ["u1", "u2", "u3"] } (some (fun _ _ => .ok ())) (fun _ _ => rfl)
  exact ⟨h.1, h.2.2 "u1" "u2" "u3" rfl⟩


/-! ### Claim C9 -/

/-- C9 counterexample: the stripper does NOT terminate on every input.  On
`"</think><think>"` — an end marker before the first start marker — the
rewriting step returns the text unchanged (`s = 8`, `e = 0`, and
`text[:8] + text[8:] = text`), so the guard holds forever and the `while`
loop never exits. -/
theorem C9_counterexample : ¬ stripTerminates "</think><think>".toList := by
  have hstep : ∀ acc : List Char,
      (stripStep (acc, "</think><think>".toList)).2 = "</think><think>".toList :=
    fun acc => rfl
  have hiter : ∀ (fuel : Nat) (acc : List Char),
      stripIter fuel (acc, "</think><think>".toList) = none := by
    intro fuel
    induction fuel with
    | zero => intro acc; rfl
    | succ fuel ih =>
      intro acc
      show stripIter fuel (stripStep (acc, "</think><think>".toList)) = none
      rw [show stripStep (acc, "</think><think>".toList)
            = ((stripStep (acc, "</think><think>".toList)).1, "</think><think>".toList)
          from Prod.ext rfl (hstep acc)]
      exact ih _
  rintro ⟨fuel, hsome⟩
  rw [hiter fuel []] at hsome
  simp at hsome

/-- C9 (amended): whenever both markers are present and the first
`</think>` does not end strictly before the first `<think>` begins
(`s < e + 8`), the rewriting step strictly decreases the length of the
text, so the loop terminates on every input that keeps this property at
each iteration (in particular on properly alternating inputs); the claim's
"every input" fails: when the first `</think>` precedes the first `<think>`
the step need not shrink the text, and on `"</think><think>"` the loop runs
forever. -/
theorem C9_step_decreases (acc text : List Char) (s e : Nat)
    (hs : findSub thinkOpen text = some s)
    (he : findSub thinkClose text = some e)
    (hse : s < e + 8) :
    ((stripStep (acc, text)).2).length < text.length := by
  have hsl := findSub_add_length_le hs
  have hel := findSub_add_length_le he
  have h7 : thinkOpen.length = 7 := rfl
  have h8 : thinkClose.length = 8 := rfl
  rw [h7] at hsl
  rw [h8] at hel
  unfold stripStep
  rw [hs, he]
  dsimp only
  rw [List.length_append, List.length_take, List.length_drop,
    Nat.min_eq_left (by omega)]
  omega

theorem C9_witness :
    findSub thinkOpen "<think>A</think>".toList = some 0 ∧
    ((stripStep ([], "<think>A</think>".toList)).2).length
      < "<think>A</think>".toList.length :=
  ⟨rfl, C9_step_decreases [] "<think>A</think>".toList 0 8 rfl rfl (by omega)⟩

/-! ### Claim C7 -/

/-- Does `s` contain a `\opn ... \cls` pair the regex would rewrite: a
first `\opn` with some `\cls` after it? -/
def hasPairB (opn cls : Char) (s : List Char) : Bool :=
  match findTwo '\\' opn s with
  | none => false
  | some pr => (findTwo '\\' cls pr.2).isSome

/-- A segment already in target delimiter form: no bracket pair and no
parenthesis pair to rewrite. -/
def cleanSeg (s : List Char) : Bool :=
  !hasPairB '[' ']' s && !hasPairB '(' ')' s

/-- All even-indexed (non-code) parts are clean. -/
def evenClean : List (List Char) → Bool
  | [] => true
  | [a] => cleanSeg a
  | a :: _ :: t => cleanSeg a && evenClean t

theorem subPairs_id {opn cls : Char} {wrap s : List Char}
    (h : hasPairB opn cls s = false) :
    ∀ fuel, subPairs opn cls wrap fuel s = s := by
  intro fuel
  cases fuel with
  | zero => rfl
  | succ fuel =>
    unfold subPairs
    unfold hasPairB at h
    cases ho : findTwo '\\' opn s with
    | none => rfl
    | some pr =>
      obtain ⟨pre, rest⟩ := pr
      rw [ho] at h
      dsimp only at h
      dsimp only
      cases hc : findTwo '\\' cls rest with
      | none => rfl
      | some pr2 =>
        rw [hc] at h
        simp at h

theorem normSeg_id {s : List Char} (h : cleanSeg s = true) : normSeg s = s := by
  have h1 : hasPairB '[' ']' s = false := by
    revert h; unfold cleanSeg; cases hasPairB '[' ']' s <;> simp
  have h2 : hasPairB '(' ')' s = false := by
    revert h; unfold cleanSeg; cases hasPairB '(' ')' s <;> simp
  unfold normSeg
  dsimp only
  rw [subPairs_id h1, subPairs_id h2]

theorem mapEven_id : ∀ parts : List (List Char),
    evenClean parts = true → mapEven normSeg parts = parts
  | [], _ => rfl
  | [a], h => by
    simp only [mapEven]
    rw [normSeg_id (by simpa [evenClean] using h)]
  | a :: b :: t, h => by
    have h' : cleanSeg a = true ∧ evenClean t = true := by
      simpa [evenClean, Bool.and_eq_true] using h
    simp only [mapEven]
    rw [normSeg_id h'.1, mapEven_id t h'.2]

theorem findOne_eq {c : Char} : ∀ (l : List Char) (pre rest : List Char),
    findOne c l = some (pre, rest) → l = pre ++ c :: rest
  | [], _, _, h => by cases h
  | a :: t, pre, rest, h => by
    unfold findOne at h
    split at h
    · next hac =>
      injection h with h1
      injection h1 with h2 h3
      subst hac
      rw [← h2, ← h3]
      rfl
    · next =>
      cases hf : findOne c t with
      | none => rw [hf] at h; cases h
      | some pr =>
        obtain ⟨p1, r1⟩ := pr
        rw [hf] at h
        simp only [Option.map_some'] at h
        injection h with h1
        injection h1 with h2 h3
        rw [← h2, ← h3, findOne_eq t p1 r1 hf]
        rfl

theorem findTriple_eq {c : Char} : ∀ (l : List Char) (pre rest : List Char),
    findTriple c l = some (pre, rest) → l = pre ++ c :: c :: c :: rest
  | [], _, _, h => by cases h
  | [_], _, _, h => by cases h
  | [_, _], _, _, h => by cases h
  | a :: b :: d :: t, pre, rest, h => by
    unfold findTriple at h
    split at h
    · next habd =>
      obtain ⟨⟨ha, hb⟩, hd⟩ : (a = c ∧ b = c) ∧ d = c := by
        simpa [Bool.and_eq_true] using habd
      injection h with h1
      injection h1 with h2 h3
      subst ha hb hd
      rw [← h2, ← h3]
      rfl
    · next =>
      cases hf : findTriple c (b :: d :: t) with
      | none => rw [hf] at h; cases h
      | some pr =>
        obtain ⟨p1, r1⟩ := pr
        rw [hf] at h
        simp only [Option.map_some'] at h
        injection h with h1
        injection h1 with h2 h3
        rw [← h2, ← h3, findTriple_eq (b :: d :: t) p1 r1 hf]
        rfl

theorem tripleTickAt_eq {rest inner rest4 : List Char}
    (h : tripleTickAt rest = some (inner, rest4)) :
    rest = btick :: btick :: (inner ++ btick :: btick :: btick :: rest4) := by
  unfold tripleTickAt at h
  split at h
  · next a b rest3 =>
    split at h
    · next hab =>
      obtain ⟨ha, hb⟩ : a = btick ∧ b = btick := by
        simpa [Bool.and_eq_true] using hab
      subst ha hb
      rw [findTriple_eq rest3 inner rest4 h]
    · cases h
  · cases h

/-- `re.split` with a capturing group loses nothing: joining the parts gives
back the input, for every fuel. -/
theorem splitCode_flatten : ∀ (fuel : Nat) (s : List Char),
    (splitCode fuel s).flatten = s := by
  intro fuel
  induction fuel with
  | zero => intro s; simp [splitCode]
  | succ fuel ih =>
    intro s
    unfold splitCode
    cases hfo : findOne btick s with
    | none => simp
    | some pr =>
      obtain ⟨pre, rest⟩ := pr
      have hs := findOne_eq s pre rest hfo
      cases htt : tripleTickAt rest with
      | some pr2 =>
        obtain ⟨inner, rest4⟩ := pr2
        have hr := tripleTickAt_eq htt
        subst hs
        subst hr
        dsimp only
        rw [htt]
        simp [ih, List.append_assoc]
      | none =>
        cases hfo2 : findOne btick rest with
        | some pr2 =>
          obtain ⟨inner, rest2⟩ := pr2
          have hr := findOne_eq rest inner rest2 hfo2
          subst hs
          subst hr
          dsimp only
          rw [htt, hfo2]
          simp [ih, List.append_assoc]
        | none =>
          dsimp only
          rw [htt, hfo2]
          simp

/-- C7 counterexample: `_normalize_latex` is NOT idempotent on every text:
on the nested input `\[\[x\]\]` one application yields `$$\[x$$\]`, and a
second application rewrites the pair that the first one created out of the
leftover delimiters, yielding `$$$$x$$$$`. -/
theorem C7_counterexample :
    normalize_latex (normalize_latex "\\[\\[x\\]\\]".toList)
      ≠ normalize_latex "\\[\\[x\\]\\]".toList := by decide

/-- C7 (amended): `_normalize_latex` returns every text already in target
delimiter form (no `\[...\]` and no `\(...\)` pair in any segment outside
code spans) unchanged, and therefore applying it twice to such a text
equals applying it once; idempotence on arbitrary text fails, e.g. on
nested bracket pairs (see the counterexample). -/
theorem C7_normalize_fixed (s : List Char)
    (h : evenClean (splitCode s.length s) = true) :
    normalize_latex s = s ∧
    normalize_latex (normalize_latex s) = normalize_latex s := by
  have hid : normalize_latex s = s := by
    unfold normalize_latex
    rw [mapEven_id _ h, splitCode_flatten]
  exact ⟨hid, by rw [hid]; exact hid⟩

theorem C7_witness :
    evenClean (splitCode "ok `\\[v\\]` $$y$$".toList.length
      "ok `\\[v\\]` $$y$$".toList) = true ∧
    normalize_latex "ok `\\[v\\]` $$y$$".toList = "ok `\\[v\\]` $$y$$".toList :=
  ⟨by decide, (C7_normalize_fixed _ (by decide)).1⟩

/-! ### Claim C8 -/

theorem containsB_of_findSub {pat l : List Char} {i : Nat}
    (h : findSub pat l = some i) : containsB pat l = true := by
  unfold containsB
  rw [h]
  rfl

theorem containsB_left {N A B : List Char} (h : containsB N (A ++ B) = false) :
    containsB N A = false := by
  cases hc : containsB N A with
  | false => rfl
  | true =>
    rw [containsB_of_middle (a := ([] : List Char)) (m := A) (b := B) (by simp) hc] at h
    cases h

/-- A needle whose distinguished first character never recurs cannot begin
strictly inside a left factor and straddle into a right factor that starts
with that character. -/
theorem not_begins_straddle {N S B : List Char} {c : Char}
    (hN1 : c ∉ N.drop 1) (hB : B.get? 0 = some c)
    (hS : S ≠ []) (hSN : S.length < N.length) :
    begins N (S ++ B) = false := by
  cases hb : begins N (S ++ B) with
  | false => rfl
  | true =>
    exfalso
    obtain ⟨t, ht⟩ := begins_iff_ex.1 hb
    have hSpos : 0 < S.length := List.length_pos.2 hS
    have h1 : (S ++ B).get? S.length = some c := by
      have hsw : (S ++ B).get? S.length = B.get? 0 := by
        rw [List.get?_eq_getElem?, List.get?_eq_getElem?, List.getElem?_append]
        rw [if_neg (lt_irrefl _)]
        simp
      rw [hsw]
      exact hB
    have h2 : (S ++ B).get? S.length = N.get? S.length := by
      rw [ht, List.get?_eq_getElem?, List.get?_eq_getElem?, List.getElem?_append,
        if_pos hSN]
    have h3 : N.get? S.length = some c := by rw [← h2, h1]
    have h4 : (N.drop 1).get? (S.length - 1) = some c := by
      rw [List.get?_eq_getElem?, List.getElem?_drop,
        show 1 + (S.length - 1) = S.length by omega, ← List.get?_eq_getElem?]
      exact h3
    exact hN1 (List.get?_mem h4)

/-- No occurrence of the needle starts strictly inside `X` when `X` is free
of the needle and the right part starts with the needle's distinguished
first character. -/
theorem no_occ_in_left {N X B : List Char} {c : Char}
    (hN1 : c ∉ N.drop 1) (hB : B.get? 0 = some c)
    (hX : containsB N X = false) :
    ∀ j, j < X.length → begins N ((X ++ B).drop j) = false := by
  intro j hj
  rw [List.drop_append_of_le_length (Nat.le_of_lt hj)]
  cases hb : begins N (X.drop j ++ B) with
  | false => rfl
  | true =>
    exfalso
    have hSne : X.drop j ≠ [] := by
      intro hnil
      have := List.length_drop j X
      rw [hnil] at this
      simp at this
      omega
    rcases Nat.lt_or_ge (X.drop j).length N.length with hlt | hge
    · rw [not_begins_straddle hN1 hB hSne hlt] at hb
      cases hb
    · have hbX : begins N (X.drop j) = true := by
        obtain ⟨t, ht⟩ := begins_iff_ex.1 hb
        have htake : (X.drop j).take N.length = N := by
          have h1 : (X.drop j ++ B).take N.length = (X.drop j).take N.length :=
            List.take_append_of_le_length hge
          rw [ht, List.take_left] at h1
          exact h1.symm
        apply begins_iff_ex.2
        refine ⟨(X.drop j).drop N.length, ?_⟩
        conv_lhs => rw [← List.take_append_drop N.length (X.drop j)]
        rw [htake]
      rw [containsB_of_begins hbX] at hX
      cases hX

theorem no_occ_in_left_open {X B : List Char} (hB : B.get? 0 = some '<')
    (hX : containsB thinkOpen X = false) :
    ∀ j, j < X.length → begins thinkOpen ((X ++ B).drop j) = false :=
  no_occ_in_left (c := '<') (by decide) hB hX

theorem no_occ_in_left_close {X B : List Char} (hB : B.get? 0 = some '<')
    (hX : containsB thinkClose X = false) :
    ∀ j, j < X.length → begins thinkClose ((X ++ B).drop j) = false :=
  no_occ_in_left (c := '<') (by decide) hB hX

/-- `</think>` cannot begin inside the seven characters of a `<think>`
marker, whatever follows. -/
theorem thinkClose_zone (W : List Char) :
    ∀ j, j < 7 → begins thinkClose ((thinkOpen ++ W).drop j) = false := by
  intro j hj
  interval_cases j <;> rfl

/-- Localisation of the first `<think>`: it sits right after a clean front
segment. -/
theorem findSub_open (P Z : List Char) (hP : containsB thinkOpen P = false) :
    findSub thinkOpen (P ++ (thinkOpen ++ Z)) = some P.length := by
  apply findSub_of_begins
  · rw [List.drop_left]
    exact begins_refl_append _ _
  · intro j hj
    exact no_occ_in_left_open (B := thinkOpen ++ Z) rfl hP j hj

/-- Localisation of the first `</think>` in a properly decomposed text. -/
theorem findSub_close (P I R : List Char)
    (hP : containsB thinkClose P = false)
    (hI : containsB thinkClose I = false) :
    findSub thinkClose (P ++ (thinkOpen ++ (I ++ (thinkClose ++ R))))
      = some (P.length + (7 + I.length)) := by
  apply findSub_of_begins
  · rw [List.drop_append,
      show (7 : Nat) + I.length = thinkOpen.length + I.length from rfl,
      List.drop_append, List.drop_left]
    exact begins_refl_append _ _
  · intro j hj
    by_cases h1 : j < P.length
    · exact no_occ_in_left_close (B := thinkOpen ++ (I ++ (thinkClose ++ R))) rfl hP j h1
    · by_cases h2 : j < P.length + 7
      · rw [show j = P.length + (j - P.length) by omega, List.drop_append]
        exact thinkClose_zone _ (j - P.length) (by omega)
      · rw [show j = P.length + (j - P.length) by omega, List.drop_append,
          show j - P.length = thinkOpen.length + (j - P.length - 7) from by
            show j - P.length = 7 + (j - P.length - 7)
            omega,
          List.drop_append]
        exact no_occ_in_left_close (B := thinkClose ++ R) rfl hI _ (by omega)

/-- One iteration of the stripper's loop on a properly decomposed text
extracts exactly the first inner span. -/
theorem stripStep_assemble (acc P I R : List Char)
    (hPo : containsB thinkOpen P = false)
    (hPc : containsB thinkClose P = false)
    (hIc : containsB thinkClose I = false) :
    stripStep (acc, P ++ (thinkOpen ++ (I ++ (thinkClose ++ R))))
      = (acc ++ stripWs I ++ "\n\n".toList, P ++ R) := by
  unfold stripStep
  rw [findSub_open P (I ++ (thinkClose ++ R)) hPo, findSub_close P I R hPc hIc]
  dsimp only
  have htake : (P ++ (thinkOpen ++ (I ++ (thinkClose ++ R)))).take
      (P.length + (7 + I.length)) = P ++ (thinkOpen ++ I) := by
    rw [List.take_append,
      show (7 : Nat) + I.length = thinkOpen.length + I.length from rfl,
      List.take_append, List.take_left]
  have hinner : ((P ++ (thinkOpen ++ I)).drop (P.length + 7)) = I := by
    rw [List.drop_append, show (7 : Nat) = thinkOpen.length from rfl,
      List.drop_left]
  have htk : (P ++ (thinkOpen ++ (I ++ (thinkClose ++ R)))).take P.length = P :=
    List.take_left P _
  have hdr : (P ++ (thinkOpen ++ (I ++ (thinkClose ++ R)))).drop
      (P.length + (7 + I.length) + 8) = R := by
    rw [show P.length + (7 + I.length) + 8 = P.length + (7 + (I.length + 8)) by omega,
      List.drop_append,
      show (7 : Nat) + (I.length + 8) = thinkOpen.length + (I.length + 8) from rfl,
      List.drop_append,
      show I.length + 8 = I.length + 8 from rfl,
      List.drop_append,
      show (8 : Nat) = thinkClose.length from rfl,
      List.drop_left]
  rw [htake, hinner, htk, hdr]

/-- A text whose thinking markers alternate properly:
`assemble p0 [(i1, p1), (i2, p2), ...]` is
`p0 <think> i1 </think> p1 <think> i2 </think> p2 ...`. -/
def assemble : List Char → List (List Char × List Char) → List Char
  | p0, [] => p0
  | p0, (inner, p) :: rest =>
      p0 ++ (thinkOpen ++ (inner ++ (thinkClose ++ assemble p rest)))

/-- The outer (non-thinking) segments concatenated: the loop's final text. -/
def outerConcat : List Char → List (List Char × List Char) → List Char
  | p0, [] => p0
  | p0, (_, p) :: rest => p0 ++ outerConcat p rest

/-- The raw accumulated `thoughts`: each inner span trimmed and followed by
a blank line, in order of appearance. -/
def rawThoughts (pairs : List (List Char × List Char)) : List Char :=
  (pairs.map (fun pr => stripWs pr.1 ++ "\n\n".toList)).flatten

theorem assemble_absorb :
    ∀ (rest : List (List Char × List Char)) (q p : List Char),
    q ++ assemble p rest = assemble (q ++ p) rest
  | [], q, p => rfl
  | (inner, p1) :: rest, q, p => by
    simp only [assemble, List.append_assoc]

theorem outerConcat_absorb :
    ∀ (rest : List (List Char × List Char)) (q p : List Char),
    q ++ outerConcat p rest = outerConcat (q ++ p) rest
  | [], q, p => rfl
  | (inner, p1) :: rest, q, p => by
    simp only [outerConcat, List.append_assoc]

/-- `stripWs l` is a contiguous factor of `l`. -/
theorem stripWs_middle (l : List Char) : ∃ a b, l = a ++ stripWs l ++ b := by
  refine ⟨l.takeWhile isPySpace,
    ((l.dropWhile isPySpace).reverse.takeWhile isPySpace).reverse, ?_⟩
  unfold stripWs
  conv_lhs => rw [← List.takeWhile_append_dropWhile isPySpace l]
  rw [List.append_assoc]
  congr 1
  conv_lhs =>
    rw [← List.reverse_reverse (l.dropWhile isPySpace),
      ← List.takeWhile_append_dropWhile isPySpace (l.dropWhile isPySpace).reverse,
      List.reverse_append]

theorem containsB_stripWs {N l : List Char} (h : containsB N l = false) :
    containsB N (stripWs l) = false := by
  obtain ⟨a, b, hd⟩ := stripWs_middle l
  cases hc : containsB N (stripWs l) with
  | false => rfl
  | true =>
    rw [containsB_of_middle hd hc] at h
    cases h

/-- Running the stripper's loop on a properly decomposed text: it performs
one iteration per marker pair, accumulates the trimmed inner spans, and
stops with the concatenated outer segments.  The inner spans must not
contain the end marker (else an earlier `</think>` would be found) and the
concatenation of the outer segments must contain neither marker (segments
merged by earlier iterations could otherwise form a new marker at a seam,
as the counterexample shows). -/
theorem stripIter_assemble :
    ∀ (pairs : List (List Char × List Char)) (p0 acc : List Char),
    (∀ pr ∈ pairs, containsB thinkClose pr.1 = false) →
    containsB thinkOpen (outerConcat p0 pairs) = false →
    containsB thinkClose (outerConcat p0 pairs) = false →
    stripIter pairs.length (acc, assemble p0 pairs)
      = some (acc ++ rawThoughts pairs, outerConcat p0 pairs) := by
  intro pairs
  induction pairs with
  | nil =>
    intro p0 acc hin ho hc
    have hcond : stripCond p0 = false := by
      unfold stripCond
      rw [show outerConcat p0 [] = p0 from rfl] at ho
      rw [ho]
      rfl
    show (if stripCond p0 = true then none else some (acc, p0))
      = some (acc ++ rawThoughts [], outerConcat p0 [])
    rw [hcond]
    simp [rawThoughts, outerConcat]
  | cons pr rest ih =>
    obtain ⟨inner, p1⟩ := pr
    intro p0 acc hin ho hc
    have hoc : outerConcat p0 ((inner, p1) :: rest) = p0 ++ outerConcat p1 rest := rfl
    rw [hoc] at ho hc
    have hPo : containsB thinkOpen p0 = false := containsB_left ho
    have hPc : containsB thinkClose p0 = false := containsB_left hc
    have hIc : containsB thinkClose inner = false := hin (inner, p1) (by simp)
    have hOpen := findSub_open p0 (inner ++ (thinkClose ++ assemble p1 rest)) hPo
    have hClose := findSub_close p0 inner (assemble p1 rest) hPc hIc
    have hcond : stripCond (assemble p0 ((inner, p1) :: rest)) = true := by
      unfold stripCond
      rw [show assemble p0 ((inner, p1) :: rest)
          = p0 ++ (thinkOpen ++ (inner ++ (thinkClose ++ assemble p1 rest))) from rfl]
      rw [containsB_of_findSub hOpen, containsB_of_findSub hClose]
      rfl
    show (if stripCond (assemble p0 ((inner, p1) :: rest)) = true
          then stripIter rest.length
            (stripStep (acc, assemble p0 ((inner, p1) :: rest)))
          else some (acc, assemble p0 ((inner, p1) :: rest)))
        = some (acc ++ rawThoughts ((inner, p1) :: rest),
            outerConcat p0 ((inner, p1) :: rest))
    rw [hcond]
    simp only [if_true]
    rw [show assemble p0 ((inner, p1) :: rest)
        = p0 ++ (thinkOpen ++ (inner ++ (thinkClose ++ assemble p1 rest))) from rfl,
      stripStep_assemble acc p0 inner (assemble p1 rest) hPo hPc hIc,
      assemble_absorb rest p0 p1,
      ih (p0 ++ p1) (acc ++ stripWs inner ++ "\n\n".toList) (fun q hq => hin q (by simp [hq]))
        (by rw [← outerConcat_absorb rest p0 p1]; exact ho)
        (by rw [← outerConcat_absorb rest p0 p1]; exact hc)]
    rw [hoc, ← outerConcat_absorb rest p0 p1]
    have hraw : rawThoughts ((inner, p1) :: rest)
        = stripWs inner ++ "\n\n".toList ++ rawThoughts rest := by
      simp [rawThoughts, List.append_assoc]
    rw [hraw]
    simp [List.append_assoc]

/-- The balance condition of the claim: every `<think>` occurrence has a
later `</think>` occurrence. -/
def balancedB (l : List Char) : Bool :=
  (List.range l.length).all (fun j =>
    !(begins thinkOpen (l.drop j)) || containsB thinkClose (l.drop (j + 7)))

/-- C8 counterexample: a balanced input (its single `<think>` has a later
`</think>`) on which the stripper terminates but the returned cleaned text
DOES contain a `<think>` marker: removing the span from
`"<thi<think>X</think>nk>"` glues `"<thi"` and `"nk>"` into a fresh
`"<think>"`, and the loop then stops because no `</think>` is left. -/
theorem C8_counterexample :
    balancedB "<thi<think>X</think>nk>".toList = true ∧
    strip_thinking_tokens 2 "<thi<think>X</think>nk>".toList
      = some ("X".toList, "<think>".toList) ∧
    containsB thinkOpen "<think>".toList = true := by
  refine ⟨by decide, by decide, by decide⟩

/-- C8 (amended): on every input whose markers alternate properly —
`p0 <think> i1 </think> p1 ... pn` with no `</think>` inside any inner span
and neither marker inside the concatenation `p0 p1 ... pn` of the outer
segments — the stripper terminates; `cleanedText` is that concatenation
trimmed and contains no `<think>` and no `</think>` marker, and `thoughts`
is the concatenation of the trimmed inner spans in order of appearance,
separated by blank lines and trimmed.  (Merely requiring every `<think>` to
be paired with a later `</think>` is not enough: removal can glue outer
segments into a fresh marker, see the counterexample.) -/
theorem C8_strip_decomposed (p0 : List Char) (pairs : List (List Char × List Char))
    (hin : ∀ pr ∈ pairs, containsB thinkClose pr.1 = false)
    (ho : containsB thinkOpen (outerConcat p0 pairs) = false)
    (hc : containsB thinkClose (outerConcat p0 pairs) = false) :
    strip_thinking_tokens pairs.length (assemble p0 pairs)
      = some (stripWs (rawThoughts pairs), stripWs (outerConcat p0 pairs)) ∧
    containsB thinkOpen (stripWs (outerConcat p0 pairs)) = false ∧
    containsB thinkClose (stripWs (outerConcat p0 pairs)) = false := by
  refine ⟨?_, containsB_stripWs ho, containsB_stripWs hc⟩
  unfold strip_thinking_tokens
  rw [stripIter_assemble pairs p0 [] hin ho hc]
  rfl

theorem C8_witness :
    strip_thinking_tokens 2 "A <think> x </think>B<think>y</think> C".toList
      = some ("x\n\ny".toList, "A B C".toList) := by
  have h := (C8_strip_decomposed "A ".toList
    [(" x ".toList, "B".toList), ("y".toList, " C".toList)]
    (by decide) (by decide) (by decide)).1
  exact h

end DeepResearch
